import Mathlib

/-!
Shallow embedding of the `nt-summary-stats` repository (src/core.cpp,
src/core.hpp) and verification of its specification claims.

Numbers: the C++ code works on `double`; the embedding uses `ℚ` (exact
arithmetic, the standard idealisation of the spec-level arithmetic).  The
single operation that leaves ℚ is `std::sqrt`, applied once in the kernel;
it is passed in as an explicit function parameter `sqrtFn : ℚ → ℚ`, so every
theorem below holds for every interpretation of the square root.

Library calls of the C++ source are embedded by their specified behaviour:
`std::sort` with the comparator `times[i1] < times[i2]` (preceded by the
`std::is_sorted` shortcut) becomes a sort of the zipped (time, charge) pairs
by time; `std::upper_bound` (first position whose element strictly exceeds
the searched value) becomes the length of the longest prefix of elements
`≤` the value; `std::partial_sum` becomes the list of prefix sums;
`std::accumulate` becomes `List.sum`.  Exceptions (`std::invalid_argument`)
become the `Except String` monad, carrying the thrown message.
-/

namespace NTSummaryStats

/-- The 9-field result record of `compute_summary_stats`
(indices 0..8 of the returned `std::array<double, 9>`, in order). -/
structure Stats where
  total_charge : ℚ
  charge_100ns : ℚ
  charge_500ns : ℚ
  first_pulse_time : ℚ
  last_pulse_time : ℚ
  charge_20_percent_time : ℚ
  charge_50_percent_time : ℚ
  charge_weighted_mean_time : ℚ
  charge_weighted_std_time : ℚ
  deriving DecidableEq

/-- Embeds the helper `empty_stats()` of core.cpp: the all-zero 9-vector. -/
def empty_stats : Stats := ⟨0, 0, 0, 0, 0, 0, 0, 0, 0⟩

/-- Comparator used to sort (time, charge) pairs: compare the time components
(the C++ lambda `times[i1] < times[i2]` induces this ordering of the pairs). -/
def pairLE (p q : ℚ × ℚ) : Prop := p.1 ≤ q.1

instance : DecidableRel pairLE := fun p q => inferInstanceAs (Decidable (p.1 ≤ q.1))

instance : IsTotal (ℚ × ℚ) pairLE := ⟨fun p q => le_total p.1 q.1⟩

instance : IsTrans (ℚ × ℚ) pairLE := ⟨fun _ _ _ h1 h2 => le_trans h1 h2⟩

/-- Strict version of `pairLE`, used to compare sorted lists with distinct keys. -/
def pairLT (p q : ℚ × ℚ) : Prop := p.1 < q.1

instance : IsAntisymm (ℚ × ℚ) pairLT :=
  ⟨fun _ _ h1 h2 => absurd h2 (not_lt.mpr (le_of_lt h1))⟩

/-- Embeds lines 30-55 of core.cpp: pair each time with its charge and sort the
pairs by time (if `times` is already non-decreasing the input order is kept,
mirroring the `std::is_sorted` shortcut; otherwise a sort by the time
component). -/
def sortPairs (times charges : List ℚ) : List (ℚ × ℚ) :=
  if List.Sorted (· ≤ ·) times then times.zip charges
  else List.insertionSort pairLE (times.zip charges)

/-- Embeds `std::upper_bound(l.begin(), l.end(), x) - l.begin()` by its
specified result: the index of the first element strictly greater than `x`
(equivalently, the length of the longest prefix of elements `≤ x`; on the
sorted ranges the source applies it to, this is the number of elements `≤ x`). -/
def upperBoundIdx (l : List ℚ) (x : ℚ) : ℕ :=
  (l.takeWhile (fun t => decide (t ≤ x))).length

/-- Embeds `std::partial_sum`: `(cumulativeSums l).getD i 0 = sum of l[0..i]`. -/
def cumulativeSums (l : List ℚ) : List ℚ :=
  (List.range l.length).map (fun i => (l.take (i + 1)).sum)

/-- Embeds lines 57-136 of core.cpp: the statistics computed from the sorted
(time, charge) pair list.  `sqrtFn` interprets `std::sqrt`. -/
def statsOfSorted (sqrtFn : ℚ → ℚ) (sorted : List (ℚ × ℚ)) : Stats :=
  let times_sorted := sorted.map Prod.fst
  let charges_sorted := sorted.map Prod.snd
  let total_charge := charges_sorted.sum
  let first_pulse_time := times_sorted.headI
  let last_pulse_time := times_sorted.getLastD 0
  let time_100ns_cutoff := first_pulse_time + 100
  let time_500ns_cutoff := first_pulse_time + 500
  let idx_100ns := upperBoundIdx times_sorted time_100ns_cutoff
  let idx_500ns := upperBoundIdx times_sorted time_500ns_cutoff
  let charge_100ns := (charges_sorted.take idx_100ns).sum
  let charge_500ns := (charges_sorted.take idx_500ns).sum
  let cumulative_charge := cumulativeSums charges_sorted
  let charge_20_percent := 0.2 * total_charge
  let charge_50_percent := 0.5 * total_charge
  let idx_20 := upperBoundIdx cumulative_charge charge_20_percent
  let idx_50 := upperBoundIdx cumulative_charge charge_50_percent
  let n_times := times_sorted.length
  let charge_20_percent_time := times_sorted.getD (min idx_20 (n_times - 1)) 0
  let charge_50_percent_time := times_sorted.getD (min idx_50 (n_times - 1)) 0
  let charge_weighted_mean_time :=
    if 0 < total_charge then
      (sorted.map (fun p => p.1 * p.2)).sum / total_charge
    else 0
  let charge_weighted_std_time :=
    if 0 < total_charge then
      sqrtFn ((sorted.map
        (fun p => p.2 * (p.1 - charge_weighted_mean_time)
          * (p.1 - charge_weighted_mean_time))).sum / total_charge)
    else 0
  ⟨total_charge, charge_100ns, charge_500ns, first_pulse_time, last_pulse_time,
   charge_20_percent_time, charge_50_percent_time,
   charge_weighted_mean_time, charge_weighted_std_time⟩

/-- Embeds `compute_summary_stats` (core.cpp lines 16-137): empty-`times`
short circuit, length validation with the thrown message, then the kernel on
the sorted pairs. -/
def compute_summary_stats (sqrtFn : ℚ → ℚ) (times charges : List ℚ) :
    Except String Stats :=
  if times = [] then .ok empty_stats
  else if times.length ≠ charges.length then
    .error ("times and charges must have the same length, got " ++
      toString times.length ++ " and " ++ toString charges.length)
  else .ok (statsOfSorted sqrtFn (sortPairs times charges))

/-- Embeds the result-collecting loop of `compute_summary_stats_batch`
(core.cpp lines 150-152): apply `f` left to right, the first error aborting
the whole computation with no partial result. -/
def mapExcept (f : α → Except String β) : List α → Except String (List β)
  | [] => .ok []
  | a :: l =>
    match f a with
    | .error e => .error e
    | .ok b =>
      match mapExcept f l with
      | .error e => .error e
      | .ok bs => .ok (b :: bs)

/-- Embeds `compute_summary_stats_batch` (core.cpp lines 139-155). -/
def compute_summary_stats_batch (sqrtFn : ℚ → ℚ)
    (times_list charges_list : List (List ℚ)) : Except String (List Stats) :=
  if times_list.length ≠ charges_list.length then
    .error "times_list and charges_list must have the same length"
  else mapExcept (fun p => compute_summary_stats sqrtFn p.1 p.2)
    (times_list.zip charges_list)

/-! Helper lemmas about the sorted pair list and the searches. -/

theorem sortPairs_eq_insertionSort (times charges : List ℚ)
    (hlen : times.length = charges.length) :
    sortPairs times charges = List.insertionSort pairLE (times.zip charges) := by
  unfold sortPairs
  split_ifs with hs
  · refine (List.Sorted.insertionSort_eq ?_).symm
    have hfst : (times.zip charges).map Prod.fst = times :=
      List.map_fst_zip times charges (le_of_eq hlen)
    rw [← hfst] at hs
    exact (@List.pairwise_map _ _ Prod.fst (· ≤ ·) (times.zip charges)).mp hs
  · rfl

theorem sortPairs_perm (times charges : List ℚ)
    (hlen : times.length = charges.length) :
    (sortPairs times charges).Perm (times.zip charges) := by
  rw [sortPairs_eq_insertionSort times charges hlen]
  exact List.perm_insertionSort pairLE (times.zip charges)

theorem sortPairs_sorted (times charges : List ℚ)
    (hlen : times.length = charges.length) :
    List.Sorted pairLE (sortPairs times charges) := by
  rw [sortPairs_eq_insertionSort times charges hlen]
  exact List.sorted_insertionSort pairLE (times.zip charges)

theorem sortPairs_fst_sorted (times charges : List ℚ)
    (hlen : times.length = charges.length) :
    List.Sorted (· ≤ ·) ((sortPairs times charges).map Prod.fst) :=
  (@List.pairwise_map _ _ Prod.fst (· ≤ ·) (sortPairs times charges)).mpr
    (sortPairs_sorted times charges hlen)

/-- Inversion of the kernel's control flow: a successful call is either the
empty-`times` short circuit or the full computation on the sorted pairs. -/
theorem compute_summary_stats_ok_cases (sqrtFn : ℚ → ℚ)
    (times charges : List ℚ) (r : Stats)
    (h : compute_summary_stats sqrtFn times charges = .ok r) :
    (times = [] ∧ r = empty_stats) ∨
    (times ≠ [] ∧ times.length = charges.length ∧
      r = statsOfSorted sqrtFn (sortPairs times charges)) := by
  unfold compute_summary_stats at h
  split_ifs at h with h1 h2
  · exact Or.inl ⟨h1, (Except.ok.inj h).symm⟩
  · exact Or.inr ⟨h1, not_not.mp h2, (Except.ok.inj h).symm⟩

/-! Projections of `statsOfSorted`, naming each field's computation. -/

theorem statsOfSorted_total (sqrtFn : ℚ → ℚ) (S : List (ℚ × ℚ)) :
    (statsOfSorted sqrtFn S).total_charge = (S.map Prod.snd).sum := rfl

theorem statsOfSorted_first (sqrtFn : ℚ → ℚ) (S : List (ℚ × ℚ)) :
    (statsOfSorted sqrtFn S).first_pulse_time = (S.map Prod.fst).headI := rfl

theorem statsOfSorted_last (sqrtFn : ℚ → ℚ) (S : List (ℚ × ℚ)) :
    (statsOfSorted sqrtFn S).last_pulse_time = (S.map Prod.fst).getLastD 0 := rfl

theorem statsOfSorted_charge100 (sqrtFn : ℚ → ℚ) (S : List (ℚ × ℚ)) :
    (statsOfSorted sqrtFn S).charge_100ns =
      ((S.map Prod.snd).take
        (upperBoundIdx (S.map Prod.fst) ((S.map Prod.fst).headI + 100))).sum := rfl

theorem statsOfSorted_charge500 (sqrtFn : ℚ → ℚ) (S : List (ℚ × ℚ)) :
    (statsOfSorted sqrtFn S).charge_500ns =
      ((S.map Prod.snd).take
        (upperBoundIdx (S.map Prod.fst) ((S.map Prod.fst).headI + 500))).sum := rfl

theorem statsOfSorted_time20 (sqrtFn : ℚ → ℚ) (S : List (ℚ × ℚ)) :
    (statsOfSorted sqrtFn S).charge_20_percent_time =
      (S.map Prod.fst).getD
        (min (upperBoundIdx (cumulativeSums (S.map Prod.snd))
            (0.2 * (S.map Prod.snd).sum))
          ((S.map Prod.fst).length - 1)) 0 := rfl

theorem statsOfSorted_time50 (sqrtFn : ℚ → ℚ) (S : List (ℚ × ℚ)) :
    (statsOfSorted sqrtFn S).charge_50_percent_time =
      (S.map Prod.fst).getD
        (min (upperBoundIdx (cumulativeSums (S.map Prod.snd))
            (0.5 * (S.map Prod.snd).sum))
          ((S.map Prod.fst).length - 1)) 0 := rfl

theorem statsOfSorted_mean (sqrtFn : ℚ → ℚ) (S : List (ℚ × ℚ)) :
    (statsOfSorted sqrtFn S).charge_weighted_mean_time =
      (if 0 < (S.map Prod.snd).sum then
        (S.map (fun p => p.1 * p.2)).sum / (S.map Prod.snd).sum
      else 0) := rfl

theorem statsOfSorted_std (sqrtFn : ℚ → ℚ) (S : List (ℚ × ℚ)) :
    (statsOfSorted sqrtFn S).charge_weighted_std_time =
      (if 0 < (S.map Prod.snd).sum then
        sqrtFn ((S.map (fun p =>
            p.2 * (p.1 - (statsOfSorted sqrtFn S).charge_weighted_mean_time)
              * (p.1 - (statsOfSorted sqrtFn S).charge_weighted_mean_time))).sum
          / (S.map Prod.snd).sum)
      else 0) := rfl

/-- On a list sorted by time, the prefix of pulses with time `≤ x` is exactly
the set of pulses with time `≤ x`. -/
theorem takeWhile_eq_filter_of_sorted {S : List (ℚ × ℚ)}
    (hs : List.Sorted pairLE S) (x : ℚ) :
    S.takeWhile (fun p => decide (p.1 ≤ x)) =
      S.filter (fun p => decide (p.1 ≤ x)) := by
  induction S with
  | nil => rfl
  | cons a t ih =>
    rw [List.sorted_cons] at hs
    by_cases h : a.1 ≤ x
    · rw [List.takeWhile_cons_of_pos (by simpa using h),
        List.filter_cons_of_pos (by simpa using h), ih hs.2]
    · rw [List.takeWhile_cons_of_neg (by simpa using h),
        List.filter_cons_of_neg (by simpa using h)]
      symm
      rw [List.filter_eq_nil_iff]
      intro b hb
      simp only [decide_eq_true_eq]
      exact fun hbx => h (le_trans (hs.1 b hb) hbx)

/-- The charge summed over the `upper_bound` prefix of the sorted pairs is the
charge summed over the pulses with time `≤ x`. -/
theorem prefix_charge_sum {S : List (ℚ × ℚ)} (hs : List.Sorted pairLE S) (x : ℚ) :
    ((S.map Prod.snd).take (upperBoundIdx (S.map Prod.fst) x)).sum =
      ((S.filter (fun p => decide (p.1 ≤ x))).map Prod.snd).sum := by
  unfold upperBoundIdx
  rw [List.takeWhile_map, List.length_map, ← List.map_take]
  have hpre : S.takeWhile ((fun t => decide (t ≤ x)) ∘ Prod.fst) =
      S.take ((S.takeWhile ((fun t => decide (t ≤ x)) ∘ Prod.fst)).length) :=
    List.prefix_iff_eq_take.mp (List.takeWhile_prefix _)
  rw [← hpre]
  have hcomp : ((fun t => decide (t ≤ x)) ∘ Prod.fst) =
      (fun p : ℚ × ℚ => decide (p.1 ≤ x)) := rfl
  rw [hcomp, takeWhile_eq_filter_of_sorted hs x]

/-- Sums of the charges of a filtered pair list are invariant under
permutation of the pairs. -/
theorem filter_snd_sum_perm {S T : List (ℚ × ℚ)} (hp : S.Perm T)
    (p : ℚ × ℚ → Bool) :
    ((S.filter p).map Prod.snd).sum = ((T.filter p).map Prod.snd).sum :=
  ((hp.filter p).map Prod.snd).sum_eq

/-- The `upper_bound` result is the first index whose element strictly
exceeds the searched value (the length of the list when there is none). -/
theorem upperBoundIdx_eq_findIdx (l : List ℚ) (x : ℚ) :
    upperBoundIdx l x = l.findIdx (fun c => decide (x < c)) := by
  unfold upperBoundIdx
  induction l with
  | nil => rfl
  | cons a t ih =>
    by_cases h : a ≤ x
    · have h' : ¬(x < a) := not_lt.mpr h
      simp [List.takeWhile_cons, List.findIdx_cons, h, h', ih]
    · have h' : x < a := lt_of_not_le h
      simp [List.takeWhile_cons, List.findIdx_cons, h, h']

/-- C1: for non-empty matching inputs, `charge_20_percent_time` is the sorted
time at the first index whose running cumulative charge strictly exceeds
`0.2 * total_charge` (the upper-bound right-side search, whose result is the
list length when the search runs past the end), the index clamped to `n - 1`;
`charge_50_percent_time` is the same with threshold `0.5 * total_charge`. -/
theorem C1_percentile_times (sqrtFn : ℚ → ℚ) (times charges : List ℚ)
    (hne : times ≠ []) (hlen : times.length = charges.length)
    (r : Stats) (hr : compute_summary_stats sqrtFn times charges = .ok r) :
    r.charge_20_percent_time =
      ((sortPairs times charges).map Prod.fst).getD
        (min ((cumulativeSums ((sortPairs times charges).map Prod.snd)).findIdx
            (fun c => decide (0.2 * r.total_charge < c)))
          (((sortPairs times charges).map Prod.fst).length - 1)) 0 ∧
    r.charge_50_percent_time =
      ((sortPairs times charges).map Prod.fst).getD
        (min ((cumulativeSums ((sortPairs times charges).map Prod.snd)).findIdx
            (fun c => decide (0.5 * r.total_charge < c)))
          (((sortPairs times charges).map Prod.fst).length - 1)) 0 := by
  rcases compute_summary_stats_ok_cases sqrtFn times charges r hr with
    ⟨h1, _⟩ | ⟨_, _, hr'⟩
  · exact absurd h1 hne
  subst hr'
  constructor
  · rw [statsOfSorted_time20, statsOfSorted_total, ← upperBoundIdx_eq_findIdx]
  · rw [statsOfSorted_time50, statsOfSorted_total, ← upperBoundIdx_eq_findIdx]

/-- Witness for C1 at `times = [1, 2, 3]`, `charges = [1, 1, 1]`. -/
theorem C1_percentile_times_witness :
    compute_summary_stats (fun _ => 0) [1, 2, 3] [1, 1, 1] =
      .ok ⟨3, 3, 3, 1, 3, 1, 2, 2, 0⟩ ∧
    (Stats.charge_20_percent_time ⟨3, 3, 3, 1, 3, 1, 2, 2, 0⟩ =
      ((sortPairs [1, 2, 3] [1, 1, 1]).map Prod.fst).getD
        (min ((cumulativeSums ((sortPairs [1, 2, 3] [1, 1, 1]).map Prod.snd)).findIdx
            (fun c => decide (0.2 * Stats.total_charge ⟨3, 3, 3, 1, 3, 1, 2, 2, 0⟩ < c)))
          (((sortPairs [1, 2, 3] [1, 1, 1]).map Prod.fst).length - 1)) 0 ∧
    Stats.charge_50_percent_time ⟨3, 3, 3, 1, 3, 1, 2, 2, 0⟩ =
      ((sortPairs [1, 2, 3] [1, 1, 1]).map Prod.fst).getD
        (min ((cumulativeSums ((sortPairs [1, 2, 3] [1, 1, 1]).map Prod.snd)).findIdx
            (fun c => decide (0.5 * Stats.total_charge ⟨3, 3, 3, 1, 3, 1, 2, 2, 0⟩ < c)))
          (((sortPairs [1, 2, 3] [1, 1, 1]).map Prod.fst).length - 1)) 0) := by
  have h : compute_summary_stats (fun _ => 0) [1, 2, 3] [1, 1, 1] =
      .ok ⟨3, 3, 3, 1, 3, 1, 2, 2, 0⟩ := by
    norm_num [compute_summary_stats, statsOfSorted, sortPairs, upperBoundIdx,
      cumulativeSums, List.takeWhile, List.range_succ, List.Sorted, List.pairwise_cons]
    all_goals exact fun hc => absurd hc (List.cons_ne_nil _ _)
  exact ⟨h, C1_percentile_times (fun _ => 0) [1, 2, 3] [1, 1, 1]
    (by simp) (by simp) ⟨3, 3, 3, 1, 3, 1, 2, 2, 0⟩ h⟩

/-- C2: for non-empty matching inputs, `charge_100ns` sums the charges of
exactly the pulses whose time is `≤ first_pulse_time + 100` (a pulse exactly
at the cutoff included), and `charge_500ns` the same with cutoff
`first_pulse_time + 500`. -/
theorem C2_time_window_charges (sqrtFn : ℚ → ℚ) (times charges : List ℚ)
    (hne : times ≠ []) (hlen : times.length = charges.length)
    (r : Stats) (hr : compute_summary_stats sqrtFn times charges = .ok r) :
    r.charge_100ns = (((times.zip charges).filter
        (fun p => decide (p.1 ≤ r.first_pulse_time + 100))).map Prod.snd).sum ∧
    r.charge_500ns = (((times.zip charges).filter
        (fun p => decide (p.1 ≤ r.first_pulse_time + 500))).map Prod.snd).sum := by
  rcases compute_summary_stats_ok_cases sqrtFn times charges r hr with
    ⟨h1, _⟩ | ⟨_, _, hr'⟩
  · exact absurd h1 hne
  subst hr'
  have hs := sortPairs_sorted times charges hlen
  have hp := sortPairs_perm times charges hlen
  constructor
  · rw [statsOfSorted_charge100, statsOfSorted_first, prefix_charge_sum hs]
    exact filter_snd_sum_perm hp _
  · rw [statsOfSorted_charge500, statsOfSorted_first, prefix_charge_sum hs]
    exact filter_snd_sum_perm hp _

/-- Witness for C2 at `times = [0, 100, 200]`, `charges = [1, 2, 4]`: the pulse
exactly at `first_pulse_time + 100` is included in `charge_100ns = 3`. -/
theorem C2_time_window_charges_witness :
    compute_summary_stats (fun _ => 0) [0, 100, 200] [1, 2, 4] =
      .ok ⟨7, 3, 7, 0, 200, 100, 200, 1000 / 7, 0⟩ ∧
    Stats.charge_100ns ⟨7, 3, 7, 0, 200, 100, 200, 1000 / 7, 0⟩ = 3 ∧
    (Stats.charge_100ns ⟨7, 3, 7, 0, 200, 100, 200, 1000 / 7, 0⟩ =
      ((([(0 : ℚ), 100, 200].zip [(1 : ℚ), 2, 4]).filter
        (fun p => decide (p.1 ≤
          Stats.first_pulse_time ⟨7, 3, 7, 0, 200, 100, 200, 1000 / 7, 0⟩ + 100))).map
          Prod.snd).sum ∧
    Stats.charge_500ns ⟨7, 3, 7, 0, 200, 100, 200, 1000 / 7, 0⟩ =
      ((([(0 : ℚ), 100, 200].zip [(1 : ℚ), 2, 4]).filter
        (fun p => decide (p.1 ≤
          Stats.first_pulse_time ⟨7, 3, 7, 0, 200, 100, 200, 1000 / 7, 0⟩ + 500))).map
          Prod.snd).sum) := by
  have h : compute_summary_stats (fun _ => 0) [0, 100, 200] [1, 2, 4] =
      .ok ⟨7, 3, 7, 0, 200, 100, 200, 1000 / 7, 0⟩ := by
    norm_num [compute_summary_stats, statsOfSorted, sortPairs, upperBoundIdx,
      cumulativeSums, List.takeWhile, List.range_succ, List.Sorted, List.pairwise_cons]
    all_goals exact fun hc => absurd hc (List.cons_ne_nil _ _)
  exact ⟨h, rfl, C2_time_window_charges (fun _ => 0) [0, 100, 200] [1, 2, 4]
    (by simp) (by simp) ⟨7, 3, 7, 0, 200, 100, 200, 1000 / 7, 0⟩ h⟩

/-- C3: for non-empty matching inputs, if `total_charge > 0` the weighted mean
is `Σ tᵢ qᵢ / total_charge` over the sorted sequence and the weighted std is
the square root of `Σ qᵢ (tᵢ - mean)² / total_charge`; if `total_charge ≤ 0`
both outputs are exactly 0 (the division branch is skipped). -/
theorem C3_weighted_moments (sqrtFn : ℚ → ℚ) (times charges : List ℚ)
    (hne : times ≠ []) (hlen : times.length = charges.length)
    (r : Stats) (hr : compute_summary_stats sqrtFn times charges = .ok r) :
    (0 < r.total_charge →
      r.charge_weighted_mean_time =
        ((sortPairs times charges).map (fun p => p.1 * p.2)).sum / r.total_charge ∧
      r.charge_weighted_std_time =
        sqrtFn (((sortPairs times charges).map (fun p =>
            p.2 * (p.1 - r.charge_weighted_mean_time) ^ 2)).sum / r.total_charge)) ∧
    (r.total_charge ≤ 0 →
      r.charge_weighted_mean_time = 0 ∧ r.charge_weighted_std_time = 0) := by
  rcases compute_summary_stats_ok_cases sqrtFn times charges r hr with
    ⟨h1, _⟩ | ⟨_, _, hr'⟩
  · exact absurd h1 hne
  subst hr'
  rw [statsOfSorted_total]
  constructor
  · intro hpos
    constructor
    · rw [statsOfSorted_mean, if_pos hpos]
    · rw [statsOfSorted_std, if_pos hpos]
      congr 2
      exact congrArg List.sum (List.map_congr_left (fun a _ => by ring))
  · intro hneg
    have hn : ¬ 0 < ((sortPairs times charges).map Prod.snd).sum := not_lt.mpr hneg
    rw [statsOfSorted_mean, if_neg hn, statsOfSorted_std, if_neg hn]
    exact ⟨rfl, rfl⟩

/-- Witness for C3 at `times = [1, 2, 3]`, `charges = [1, 1, 1]` (positive
total charge: mean 2, std argument 2/3). -/
theorem C3_weighted_moments_witness :
    compute_summary_stats (fun x => x) [1, 2, 3] [1, 1, 1] =
      .ok ⟨3, 3, 3, 1, 3, 1, 2, 2, 2 / 3⟩ ∧
    (0 : ℚ) < Stats.total_charge ⟨3, 3, 3, 1, 3, 1, 2, 2, 2 / 3⟩ ∧
    (Stats.charge_weighted_mean_time ⟨3, 3, 3, 1, 3, 1, 2, 2, 2 / 3⟩ =
      ((sortPairs [1, 2, 3] [1, 1, 1]).map (fun p => p.1 * p.2)).sum /
        Stats.total_charge ⟨3, 3, 3, 1, 3, 1, 2, 2, 2 / 3⟩ ∧
    Stats.charge_weighted_std_time ⟨3, 3, 3, 1, 3, 1, 2, 2, 2 / 3⟩ =
      (fun x => x) (((sortPairs [1, 2, 3] [1, 1, 1]).map (fun p =>
          p.2 * (p.1 - Stats.charge_weighted_mean_time ⟨3, 3, 3, 1, 3, 1, 2, 2, 2 / 3⟩) ^ 2)).sum /
        Stats.total_charge ⟨3, 3, 3, 1, 3, 1, 2, 2, 2 / 3⟩)) := by
  have h : compute_summary_stats (fun x => x) [1, 2, 3] [1, 1, 1] =
      .ok ⟨3, 3, 3, 1, 3, 1, 2, 2, 2 / 3⟩ := by
    norm_num [compute_summary_stats, statsOfSorted, sortPairs, upperBoundIdx,
      cumulativeSums, List.takeWhile, List.range_succ, List.Sorted, List.pairwise_cons]
    all_goals exact fun hc => absurd hc (List.cons_ne_nil _ _)
  refine ⟨h, by norm_num, ?_⟩
  exact (C3_weighted_moments (fun x => x) [1, 2, 3] [1, 1, 1]
    (by simp) (by simp) ⟨3, 3, 3, 1, 3, 1, 2, 2, 2 / 3⟩ h).1 (by norm_num)

/-- C4: with an empty `times` sequence, `compute_summary_stats` returns the
9-element all-zero vector for every `charges` sequence (matching or not) and
raises no error: the emptiness test short-circuits the length validation. -/
theorem C4_empty_times_short_circuit (sqrtFn : ℚ → ℚ) (charges : List ℚ) :
    compute_summary_stats sqrtFn [] charges = .ok empty_stats ∧
    empty_stats = ⟨0, 0, 0, 0, 0, 0, 0, 0, 0⟩ :=
  ⟨rfl, rfl⟩

/-- C5: with a non-empty `times` and `len(times) ≠ len(charges)`,
`compute_summary_stats` fails with the invalid-argument error whose message
names the two observed lengths, and produces no statistics vector. -/
theorem C5_kernel_length_mismatch_error (sqrtFn : ℚ → ℚ) (times charges : List ℚ)
    (hne : times ≠ []) (hlen : times.length ≠ charges.length) :
    compute_summary_stats sqrtFn times charges =
      .error ("times and charges must have the same length, got " ++
        toString times.length ++ " and " ++ toString charges.length) := by
  unfold compute_summary_stats
  rw [if_neg hne, if_pos hlen]

/-- Witness for C5 at `times = [1]`, `charges = [1, 2]`. -/
theorem C5_kernel_length_mismatch_error_witness :
    ([1] : List ℚ) ≠ [] ∧ ([1] : List ℚ).length ≠ ([1, 2] : List ℚ).length ∧
    compute_summary_stats (fun _ => 0) [1] [1, 2] =
      .error "times and charges must have the same length, got 1 and 2" :=
  ⟨by simp, by simp, C5_kernel_length_mismatch_error (fun _ => 0) [1] [1, 2]
    (by simp) (by simp)⟩

/-- C6 counterexample: the batch length-mismatch error does NOT carry the
offending lengths.  Two calls with different offending outer lengths (1 vs 0,
and 2 vs 0) produce the identical fixed message, and that message contains
none of the digit characters of those lengths. -/
theorem C6_batch_error_counterexample :
    compute_summary_stats_batch (fun _ => 0) [[(1 : ℚ)]] [] =
      .error "times_list and charges_list must have the same length" ∧
    compute_summary_stats_batch (fun _ => 0) [[(1 : ℚ)], [2]] [] =
      .error "times_list and charges_list must have the same length" ∧
    "times_list and charges_list must have the same length".toList.contains '0' = false ∧
    "times_list and charges_list must have the same length".toList.contains '1' = false ∧
    "times_list and charges_list must have the same length".toList.contains '2' = false :=
  ⟨rfl, rfl, by decide, by decide, by decide⟩

/-- C6 (amended): when `len(times_list) ≠ len(charges_list)`,
`compute_summary_stats_batch` fails with an invalid-argument error before
invoking the kernel on any sensor; the error message is a fixed string that
does not include the offending lengths. -/
theorem C6_batch_length_mismatch_error (sqrtFn : ℚ → ℚ)
    (times_list charges_list : List (List ℚ))
    (hlen : times_list.length ≠ charges_list.length) :
    compute_summary_stats_batch sqrtFn times_list charges_list =
      .error "times_list and charges_list must have the same length" := by
  unfold compute_summary_stats_batch
  rw [if_pos hlen]

/-- Witness for the amended C6 at outer lengths 1 and 2. -/
theorem C6_batch_length_mismatch_error_witness :
    ([[(1 : ℚ)]] : List (List ℚ)).length ≠ ([[1], [2]] : List (List ℚ)).length ∧
    compute_summary_stats_batch (fun _ => 0) [[(1 : ℚ)]] [[1], [2]] =
      .error "times_list and charges_list must have the same length" :=
  ⟨by simp, C6_batch_length_mismatch_error (fun _ => 0) [[1]] [[1], [2]] (by simp)⟩

/-! Helpers for the index-clamp and ordering claims. -/

theorem headI_eq_getD {l : List ℚ} (h : l ≠ []) : l.headI = l.getD 0 0 := by
  cases l with
  | nil => exact absurd rfl h
  | cons a t => rfl

theorem getLastD_eq_getD {l : List ℚ} (h : l ≠ []) :
    l.getLastD 0 = l.getD (l.length - 1) 0 := by
  have hl : 0 < l.length := List.length_pos.mpr h
  rw [List.getLastD_eq_getLast?, List.getLast?_eq_getLast l h, Option.getD_some,
    List.getLast_eq_getElem,
    List.getD_eq_getElem l 0 (by omega : l.length - 1 < l.length)]

theorem getD_mem {l : List ℚ} {k : ℕ} (hk : k < l.length) : l.getD k 0 ∈ l := by
  rw [List.getD_eq_getElem l 0 hk]
  exact List.getElem_mem hk

theorem sorted_getD_mono {l : List ℚ} (hs : List.Sorted (· ≤ ·) l) {i j : ℕ}
    (hij : i ≤ j) (hj : j < l.length) : l.getD i 0 ≤ l.getD j 0 := by
  rcases lt_or_eq_of_le hij with hlt | hij'
  · rw [List.getD_eq_getElem l 0 (lt_of_le_of_lt hij hj), List.getD_eq_getElem l 0 hj]
    exact List.pairwise_iff_getElem.mp hs i j (lt_of_le_of_lt hij hj) hj hlt
  · rw [hij']

/-- The upper-bound index is monotone in the searched value. -/
theorem upperBoundIdx_mono (l : List ℚ) {x y : ℚ} (hxy : x ≤ y) :
    upperBoundIdx l x ≤ upperBoundIdx l y := by
  unfold upperBoundIdx
  induction l with
  | nil => exact le_refl _
  | cons a t ih =>
    by_cases h : a ≤ x
    · rw [List.takeWhile_cons_of_pos (by simpa using h),
        List.takeWhile_cons_of_pos (by simpa using le_trans h hxy)]
      simpa using ih
    · rw [List.takeWhile_cons_of_neg (by simpa using h)]
      exact Nat.zero_le _

/-- C9: for a successful call with positive total charge and non-negative
charges, `charge_20_percent_time ≤ charge_50_percent_time`. -/
theorem C9_percentile_monotone (sqrtFn : ℚ → ℚ) (times charges : List ℚ)
    (r : Stats) (hr : compute_summary_stats sqrtFn times charges = .ok r)
    (hpos : 0 < r.total_charge) (hq : ∀ q ∈ charges, 0 ≤ q) :
    r.charge_20_percent_time ≤ r.charge_50_percent_time := by
  rcases compute_summary_stats_ok_cases sqrtFn times charges r hr with
    ⟨_, hr'⟩ | ⟨hne, hlen, hr'⟩
  · subst hr'
    exact le_refl _
  subst hr'
  rw [statsOfSorted_total] at hpos
  rw [statsOfSorted_time20, statsOfSorted_time50]
  have hts : ((sortPairs times charges).map Prod.fst).length = times.length := by
    rw [List.length_map, (sortPairs_perm times charges hlen).length_eq,
      List.length_zip, hlen, min_self]
  have hn : 0 < ((sortPairs times charges).map Prod.fst).length := by
    rw [hts]
    exact List.length_pos.mpr hne
  have hθ : (0.2 : ℚ) * ((sortPairs times charges).map Prod.snd).sum ≤
      0.5 * ((sortPairs times charges).map Prod.snd).sum := by
    nlinarith [hpos]
  refine sorted_getD_mono (sortPairs_fst_sorted times charges hlen) ?_ ?_
  · exact min_le_min (upperBoundIdx_mono _ hθ) (le_refl _)
  · exact lt_of_le_of_lt (min_le_right _ _) (by omega)

/-- Witness for C9 at `times = [0, 100, 200]`, `charges = [1, 2, 4]`. -/
theorem C9_percentile_monotone_witness :
    compute_summary_stats (fun _ => 0) [0, 100, 200] [1, 2, 4] =
      .ok ⟨7, 3, 7, 0, 200, 100, 200, 1000 / 7, 0⟩ ∧
    (0 : ℚ) < Stats.total_charge ⟨7, 3, 7, 0, 200, 100, 200, 1000 / 7, 0⟩ ∧
    (∀ q ∈ ([1, 2, 4] : List ℚ), 0 ≤ q) ∧
    Stats.charge_20_percent_time ⟨7, 3, 7, 0, 200, 100, 200, 1000 / 7, 0⟩ ≤
      Stats.charge_50_percent_time ⟨7, 3, 7, 0, 200, 100, 200, 1000 / 7, 0⟩ := by
  have h : compute_summary_stats (fun _ => 0) [0, 100, 200] [1, 2, 4] =
      .ok ⟨7, 3, 7, 0, 200, 100, 200, 1000 / 7, 0⟩ := by
    norm_num [compute_summary_stats, statsOfSorted, sortPairs, upperBoundIdx,
      cumulativeSums, List.takeWhile, List.range_succ, List.Sorted, List.pairwise_cons]
    all_goals exact fun hc => absurd hc (List.cons_ne_nil _ _)
  refine ⟨h, by norm_num, by norm_num, ?_⟩
  exact C9_percentile_monotone (fun _ => 0) [0, 100, 200] [1, 2, 4]
    ⟨7, 3, 7, 0, 200, 100, 200, 1000 / 7, 0⟩ h (by norm_num) (by norm_num)

/-- C10: for non-empty matching inputs, the four time outputs are elements of
the input `times`, and the two percentile times lie between the first and the
last pulse time: the index clamp keeps the percentile lookups inside the
sorted times array. -/
theorem C10_time_outputs_in_range (sqrtFn : ℚ → ℚ) (times charges : List ℚ)
    (hne : times ≠ []) (hlen : times.length = charges.length)
    (r : Stats) (hr : compute_summary_stats sqrtFn times charges = .ok r) :
    r.first_pulse_time ∈ times ∧ r.last_pulse_time ∈ times ∧
    r.charge_20_percent_time ∈ times ∧ r.charge_50_percent_time ∈ times ∧
    r.first_pulse_time ≤ r.charge_20_percent_time ∧
    r.charge_20_percent_time ≤ r.last_pulse_time ∧
    r.first_pulse_time ≤ r.charge_50_percent_time ∧
    r.charge_50_percent_time ≤ r.last_pulse_time := by
  rcases compute_summary_stats_ok_cases sqrtFn times charges r hr with
    ⟨h1, _⟩ | ⟨_, _, hr'⟩
  · exact absurd h1 hne
  subst hr'
  have hts : ((sortPairs times charges).map Prod.fst).length = times.length := by
    rw [List.length_map, (sortPairs_perm times charges hlen).length_eq,
      List.length_zip, hlen, min_self]
  have hn : 0 < ((sortPairs times charges).map Prod.fst).length := by
    rw [hts]
    exact List.length_pos.mpr hne
  have hne' : ((sortPairs times charges).map Prod.fst) ≠ [] :=
    List.ne_nil_of_length_pos hn
  have hmem : ∀ x ∈ (sortPairs times charges).map Prod.fst, x ∈ times := by
    intro x hx
    have hpm : ((sortPairs times charges).map Prod.fst).Perm
        (((times.zip charges)).map Prod.fst) :=
      (sortPairs_perm times charges hlen).map Prod.fst
    rw [List.map_fst_zip times charges (le_of_eq hlen)] at hpm
    exact hpm.mem_iff.mp hx
  have hsorted := sortPairs_fst_sorted times charges hlen
  rw [statsOfSorted_first, statsOfSorted_last, statsOfSorted_time20,
    statsOfSorted_time50, headI_eq_getD hne', getLastD_eq_getD hne']
  have hmin20 : min (upperBoundIdx (cumulativeSums ((sortPairs times charges).map Prod.snd))
      (0.2 * ((sortPairs times charges).map Prod.snd).sum))
      (((sortPairs times charges).map Prod.fst).length - 1) <
      ((sortPairs times charges).map Prod.fst).length :=
    lt_of_le_of_lt (min_le_right _ _) (by omega)
  have hmin50 : min (upperBoundIdx (cumulativeSums ((sortPairs times charges).map Prod.snd))
      (0.5 * ((sortPairs times charges).map Prod.snd).sum))
      (((sortPairs times charges).map Prod.fst).length - 1) <
      ((sortPairs times charges).map Prod.fst).length :=
    lt_of_le_of_lt (min_le_right _ _) (by omega)
  refine ⟨hmem _ (getD_mem hn), hmem _ (getD_mem (by omega)),
    hmem _ (getD_mem hmin20), hmem _ (getD_mem hmin50),
    sorted_getD_mono hsorted (Nat.zero_le _) hmin20,
    sorted_getD_mono hsorted (min_le_right _ _) (by omega),
    sorted_getD_mono hsorted (Nat.zero_le _) hmin50,
    sorted_getD_mono hsorted (min_le_right _ _) (by omega)⟩

/-- Witness for C10 at `times = [0, 100, 200]`, `charges = [1, 2, 4]`. -/
theorem C10_time_outputs_in_range_witness :
    compute_summary_stats (fun _ => 0) [0, 100, 200] [1, 2, 4] =
      .ok ⟨7, 3, 7, 0, 200, 100, 200, 1000 / 7, 0⟩ ∧
    (Stats.first_pulse_time ⟨7, 3, 7, 0, 200, 100, 200, 1000 / 7, 0⟩ ∈
        ([0, 100, 200] : List ℚ) ∧
      Stats.last_pulse_time ⟨7, 3, 7, 0, 200, 100, 200, 1000 / 7, 0⟩ ∈
        ([0, 100, 200] : List ℚ) ∧
      Stats.charge_20_percent_time ⟨7, 3, 7, 0, 200, 100, 200, 1000 / 7, 0⟩ ∈
        ([0, 100, 200] : List ℚ) ∧
      Stats.charge_50_percent_time ⟨7, 3, 7, 0, 200, 100, 200, 1000 / 7, 0⟩ ∈
        ([0, 100, 200] : List ℚ) ∧
      Stats.first_pulse_time ⟨7, 3, 7, 0, 200, 100, 200, 1000 / 7, 0⟩ ≤
        Stats.charge_20_percent_time ⟨7, 3, 7, 0, 200, 100, 200, 1000 / 7, 0⟩ ∧
      Stats.charge_20_percent_time ⟨7, 3, 7, 0, 200, 100, 200, 1000 / 7, 0⟩ ≤
        Stats.last_pulse_time ⟨7, 3, 7, 0, 200, 100, 200, 1000 / 7, 0⟩ ∧
      Stats.first_pulse_time ⟨7, 3, 7, 0, 200, 100, 200, 1000 / 7, 0⟩ ≤
        Stats.charge_50_percent_time ⟨7, 3, 7, 0, 200, 100, 200, 1000 / 7, 0⟩ ∧
      Stats.charge_50_percent_time ⟨7, 3, 7, 0, 200, 100, 200, 1000 / 7, 0⟩ ≤
        Stats.last_pulse_time ⟨7, 3, 7, 0, 200, 100, 200, 1000 / 7, 0⟩) := by
  have h : compute_summary_stats (fun _ => 0) [0, 100, 200] [1, 2, 4] =
      .ok ⟨7, 3, 7, 0, 200, 100, 200, 1000 / 7, 0⟩ := by
    norm_num [compute_summary_stats, statsOfSorted, sortPairs, upperBoundIdx,
      cumulativeSums, List.takeWhile, List.range_succ, List.Sorted, List.pairwise_cons]
    all_goals exact fun hc => absurd hc (List.cons_ne_nil _ _)
  exact ⟨h, C10_time_outputs_in_range (fun _ => 0) [0, 100, 200] [1, 2, 4]
    (by simp) (by simp) ⟨7, 3, 7, 0, 200, 100, 200, 1000 / 7, 0⟩ h⟩

/-! Helpers for the batch driver. -/

theorem except_isOk_iff {β : Type} {x : Except String β} :
    x.isOk = true ↔ ∃ b, x = .ok b := by
  cases x with
  | error e => simp [Except.isOk, Except.toBool]
  | ok b => simp [Except.isOk, Except.toBool]

theorem mapExcept_ok_spec {α β : Type} (f : α → Except String β) (d : α) (d' : β) :
    ∀ (l : List α) (rs : List β), mapExcept f l = .ok rs →
      rs.length = l.length ∧
      ∀ i, i < l.length → f (l.getD i d) = .ok (rs.getD i d') := by
  intro l
  induction l with
  | nil =>
    intro rs h
    have h' : ([] : List β) = rs := by simpa [mapExcept] using h
    subst h'
    exact ⟨rfl, fun i hi => absurd hi (Nat.not_lt_zero i)⟩
  | cons a t ih =>
    intro rs h
    cases hfa : f a with
    | error e => simp [mapExcept, hfa] at h
    | ok b =>
      cases hmt : mapExcept f t with
      | error e => simp [mapExcept, hfa, hmt] at h
      | ok bs =>
        have h' : b :: bs = rs := by simpa [mapExcept, hfa, hmt] using h
        subst h'
        obtain ⟨hl, hp⟩ := ih bs hmt
        refine ⟨by simpa using hl, ?_⟩
        intro i hi
        cases i with
        | zero => simpa using hfa
        | succ i =>
          rw [List.getD_cons_succ, List.getD_cons_succ]
          exact hp i (by simpa using hi)

theorem mapExcept_all_ok {α β : Type} (f : α → Except String β) :
    ∀ (l : List α), (∀ a ∈ l, (f a).isOk = true) →
      (mapExcept f l).isOk = true := by
  intro l
  induction l with
  | nil => intro _; rfl
  | cons a t ih =>
    intro hall
    obtain ⟨b, hfa⟩ := except_isOk_iff.mp (hall a (List.mem_cons_self a t))
    obtain ⟨bs, hmt⟩ := except_isOk_iff.mp
      (ih (fun x hx => hall x (List.mem_cons_of_mem a hx)))
    simp [mapExcept, hfa, hmt, Except.isOk, Except.toBool]

theorem mapExcept_first_error {α β : Type} (f : α → Except String β) (d : α) :
    ∀ (l : List α) (i : ℕ), i < l.length → ∀ e, f (l.getD i d) = .error e →
      (∀ j, j < i → (f (l.getD j d)).isOk = true) →
      mapExcept f l = .error e := by
  intro l
  induction l with
  | nil => intro i hi; exact absurd hi (Nat.not_lt_zero i)
  | cons a t ih =>
    intro i hi e herr hok
    cases i with
    | zero =>
      rw [List.getD_cons_zero] at herr
      simp [mapExcept, herr]
    | succ i =>
      obtain ⟨b, hfa⟩ := except_isOk_iff.mp (by simpa using hok 0 (Nat.succ_pos i))
      have ht : mapExcept f t = .error e := by
        refine ih i (by simpa using hi) e (by simpa using herr) ?_
        intro j hj
        simpa using hok (j + 1) (by omega)
      simp [mapExcept, hfa, ht]

theorem getD_zip {α β : Type} (d1 : α) (d2 : β) :
    ∀ (l1 : List α) (l2 : List β) (i : ℕ), i < l1.length →
      l1.length = l2.length →
      (l1.zip l2).getD i (d1, d2) = (l1.getD i d1, l2.getD i d2) := by
  intro l1
  induction l1 with
  | nil => intro l2 i hi _; exact absurd hi (Nat.not_lt_zero i)
  | cons a t ih =>
    intro l2 i hi hl
    cases l2 with
    | nil => simp at hl
    | cons b s =>
      cases i with
      | zero => rfl
      | succ i =>
        rw [List.zip_cons_cons, List.getD_cons_succ, List.getD_cons_succ,
          List.getD_cons_succ]
        exact ih s i (by simpa using hi) (by simpa using hl)

/-- C7: with equal outer lengths, the batch driver succeeds whenever every
per-sensor kernel call succeeds; a successful batch result has exactly N
entries, the i-th being the kernel result on the i-th pair, in input order;
and if the kernel fails on the first failing pair, the whole batch call
fails with that kernel error (no partial result). -/
theorem C7_batch_consistency (sqrtFn : ℚ → ℚ)
    (times_list charges_list : List (List ℚ))
    (hlen : times_list.length = charges_list.length) :
    ((∀ i, i < times_list.length →
        (compute_summary_stats sqrtFn (times_list.getD i [])
          (charges_list.getD i [])).isOk = true) →
      (compute_summary_stats_batch sqrtFn times_list charges_list).isOk = true) ∧
    (∀ rs, compute_summary_stats_batch sqrtFn times_list charges_list = .ok rs →
      rs.length = times_list.length ∧
      ∀ i, i < times_list.length →
        compute_summary_stats sqrtFn (times_list.getD i []) (charges_list.getD i []) =
          .ok (rs.getD i empty_stats)) ∧
    (∀ i, i < times_list.length → ∀ e,
      compute_summary_stats sqrtFn (times_list.getD i [])
        (charges_list.getD i []) = .error e →
      (∀ j, j < i →
        (compute_summary_stats sqrtFn (times_list.getD j [])
          (charges_list.getD j [])).isOk = true) →
      compute_summary_stats_batch sqrtFn times_list charges_list = .error e) := by
  have hbatch : compute_summary_stats_batch sqrtFn times_list charges_list =
      mapExcept (fun p => compute_summary_stats sqrtFn p.1 p.2)
        (times_list.zip charges_list) := by
    unfold compute_summary_stats_batch
    rw [if_neg (fun hc => hc hlen)]
  have hziplen : (times_list.zip charges_list).length = times_list.length := by
    rw [List.length_zip, hlen, min_self, ← hlen]
  refine ⟨?_, ?_, ?_⟩
  · intro hall
    rw [hbatch]
    refine mapExcept_all_ok _ _ ?_
    intro p hp
    obtain ⟨⟨i, hi⟩, hget⟩ := List.mem_iff_get.mp hp
    have hi' : i < times_list.length := by rw [← hziplen]; exact hi
    have hp' : p = (times_list.getD i [], charges_list.getD i []) := by
      rw [← hget, List.get_eq_getElem,
        ← List.getD_eq_getElem (times_list.zip charges_list) ([], []) hi]
      exact getD_zip [] [] times_list charges_list i hi' hlen
    rw [hp']
    exact hall i hi'
  · intro rs hok
    rw [hbatch] at hok
    obtain ⟨hl, hp⟩ := mapExcept_ok_spec _ ([], []) empty_stats
      (times_list.zip charges_list) rs hok
    refine ⟨by rw [hl, hziplen], ?_⟩
    intro i hi
    have hi'' : i < (times_list.zip charges_list).length := by
      rw [hziplen]; exact hi
    have := hp i hi''
    rwa [getD_zip [] [] times_list charges_list i hi hlen] at this
  · intro i hi e herr hok'
    rw [hbatch]
    refine mapExcept_first_error _ ([], []) (times_list.zip charges_list) i
      (by rw [hziplen]; exact hi) e ?_ ?_
    · rw [getD_zip [] [] times_list charges_list i hi hlen]
      exact herr
    · intro j hj
      rw [getD_zip [] [] times_list charges_list j (lt_trans hj hi) hlen]
      exact hok' j hj

/-- Witness for C7 at `times_list = [[1], [2]]`, `charges_list = [[1], [3]]`. -/
theorem C7_batch_consistency_witness :
    ([[(1 : ℚ)], [2]] : List (List ℚ)).length =
      ([[(1 : ℚ)], [3]] : List (List ℚ)).length ∧
    (((∀ i, i < ([[(1 : ℚ)], [2]] : List (List ℚ)).length →
        (compute_summary_stats (fun _ => 0)
          (([[(1 : ℚ)], [2]] : List (List ℚ)).getD i [])
          (([[(1 : ℚ)], [3]] : List (List ℚ)).getD i [])).isOk = true) →
      (compute_summary_stats_batch (fun _ => 0) [[(1 : ℚ)], [2]]
        [[(1 : ℚ)], [3]]).isOk = true) ∧
    (∀ rs, compute_summary_stats_batch (fun _ => 0) [[(1 : ℚ)], [2]]
        [[(1 : ℚ)], [3]] = .ok rs →
      rs.length = ([[(1 : ℚ)], [2]] : List (List ℚ)).length ∧
      ∀ i, i < ([[(1 : ℚ)], [2]] : List (List ℚ)).length →
        compute_summary_stats (fun _ => 0)
          (([[(1 : ℚ)], [2]] : List (List ℚ)).getD i [])
          (([[(1 : ℚ)], [3]] : List (List ℚ)).getD i []) =
          .ok (rs.getD i empty_stats)) ∧
    (∀ i, i < ([[(1 : ℚ)], [2]] : List (List ℚ)).length → ∀ e,
      compute_summary_stats (fun _ => 0)
        (([[(1 : ℚ)], [2]] : List (List ℚ)).getD i [])
        (([[(1 : ℚ)], [3]] : List (List ℚ)).getD i []) = .error e →
      (∀ j, j < i →
        (compute_summary_stats (fun _ => 0)
          (([[(1 : ℚ)], [2]] : List (List ℚ)).getD j [])
          (([[(1 : ℚ)], [3]] : List (List ℚ)).getD j [])).isOk = true) →
      compute_summary_stats_batch (fun _ => 0) [[(1 : ℚ)], [2]]
        [[(1 : ℚ)], [3]] = .error e)) :=
  ⟨rfl, C7_batch_consistency (fun _ => 0) [[(1 : ℚ)], [2]] [[(1 : ℚ)], [3]] rfl⟩

/-! Helpers for sort invariance. -/

theorem zip_map_fst_snd {α β : Type} : ∀ (l : List (α × β)),
    (l.map Prod.fst).zip (l.map Prod.snd) = l := by
  intro l
  induction l with
  | nil => rfl
  | cons a t ih => rw [List.map_cons, List.map_cons, List.zip_cons_cons, ih]

/-- A list of pairs sorted by key with pairwise-distinct keys is strictly
sorted by key. -/
theorem sorted_key_nodup_strict {l : List (ℚ × ℚ)} (hs : List.Sorted pairLE l)
    (hnd : (l.map Prod.fst).Nodup) : List.Sorted pairLT l := by
  have h2 : l.Pairwise (fun p q : ℚ × ℚ => p.1 ≠ q.1) :=
    (@List.pairwise_map _ _ Prod.fst (· ≠ ·) l).mp hnd
  exact (hs.and h2).imp (fun h => lt_of_le_of_ne h.1 h.2)

/-- C8: for a valid equal-length pair with pairwise-distinct times and any
permutation applied identically to both sequences (expressed as a permutation
of the zipped pairs), the kernel's result on the permuted pair equals its
result on the time-sorted version of the same pairs. -/
theorem C8_sort_invariance (sqrtFn : ℚ → ℚ)
    (times charges times' charges' : List ℚ)
    (hlen : times.length = charges.length)
    (hlen' : times'.length = charges'.length)
    (hnd : times.Nodup)
    (hperm : (times'.zip charges').Perm (times.zip charges)) :
    compute_summary_stats sqrtFn times' charges' =
      compute_summary_stats sqrtFn
        ((sortPairs times charges).map Prod.fst)
        ((sortPairs times charges).map Prod.snd) := by
  by_cases hT : times = []
  · subst hT
    have hz : times'.zip charges' = [] := hperm.eq_nil
    have ht' : times' = [] := by
      have h0 : (times'.zip charges').length = 0 := by rw [hz]; rfl
      rw [List.length_zip, hlen', min_self] at h0
      exact List.eq_nil_of_length_eq_zero (by rw [hlen']; exact h0)
    subst ht'
    have hS : sortPairs [] charges = [] := by
      unfold sortPairs
      split_ifs <;> rfl
    rw [hS]
    rfl
  · have hzlen : (times.zip charges).length = times.length := by
      rw [List.length_zip, hlen, min_self, ← hlen]
    have hz'len : (times'.zip charges').length = times'.length := by
      rw [List.length_zip, hlen', min_self, ← hlen']
    have htlen' : times'.length = times.length := by
      rw [← hz'len, hperm.length_eq, hzlen]
    have hT' : times' ≠ [] := by
      intro h
      apply hT
      have h0 := htlen'
      rw [h] at h0
      exact List.eq_nil_of_length_eq_zero h0.symm
    have hSperm := sortPairs_perm times charges hlen
    have hSsorted := sortPairs_sorted times charges hlen
    have hfstS : ((sortPairs times charges).map Prod.fst).length =
        ((sortPairs times charges).map Prod.snd).length := by simp
    have hfstne : (sortPairs times charges).map Prod.fst ≠ [] := by
      intro h
      apply hT
      have h0 : (sortPairs times charges).length = 0 := by
        simpa using congrArg List.length h
      rw [hSperm.length_eq, hzlen] at h0
      exact List.eq_nil_of_length_eq_zero h0
    have hL : compute_summary_stats sqrtFn times' charges' =
        .ok (statsOfSorted sqrtFn (sortPairs times' charges')) := by
      unfold compute_summary_stats
      rw [if_neg hT', if_neg (fun hc => hc hlen')]
    have hR : compute_summary_stats sqrtFn ((sortPairs times charges).map Prod.fst)
        ((sortPairs times charges).map Prod.snd) =
        .ok (statsOfSorted sqrtFn
          (sortPairs ((sortPairs times charges).map Prod.fst)
            ((sortPairs times charges).map Prod.snd))) := by
      unfold compute_summary_stats
      rw [if_neg hfstne, if_neg (fun hc => hc hfstS)]
    rw [hL, hR]
    have hnodupS : ((sortPairs times charges).map Prod.fst).Nodup := by
      have hpm : ((sortPairs times charges).map Prod.fst).Perm
          ((times.zip charges).map Prod.fst) := hSperm.map Prod.fst
      rw [List.map_fst_zip times charges (le_of_eq hlen)] at hpm
      exact hpm.nodup_iff.mpr hnd
    have hkey : sortPairs times' charges' =
        sortPairs ((sortPairs times charges).map Prod.fst)
          ((sortPairs times charges).map Prod.snd) := by
      rw [sortPairs_eq_insertionSort times' charges' hlen',
        sortPairs_eq_insertionSort _ _ hfstS, zip_map_fst_snd,
        List.Sorted.insertionSort_eq hSsorted]
      have hperm2 : (List.insertionSort pairLE (times'.zip charges')).Perm
          (sortPairs times charges) :=
        ((List.perm_insertionSort pairLE _).trans hperm).trans hSperm.symm
      have hsorted1 : List.Sorted pairLE
          (List.insertionSort pairLE (times'.zip charges')) :=
        List.sorted_insertionSort pairLE _
      have hnodup1 :
          ((List.insertionSort pairLE (times'.zip charges')).map Prod.fst).Nodup :=
        (hperm2.map Prod.fst).nodup_iff.mpr hnodupS
      exact List.eq_of_perm_of_sorted hperm2
        (sorted_key_nodup_strict hsorted1 hnodup1)
        (sorted_key_nodup_strict hSsorted hnodupS)
    rw [hkey]

/-- Witness for C8: `(times, charges) = ([2, 1], [5, 7])` and its swapped
permutation `([1, 2], [7, 5])`. -/
theorem C8_sort_invariance_witness :
    ([2, 1] : List ℚ).length = ([5, 7] : List ℚ).length ∧
    ([1, 2] : List ℚ).length = ([7, 5] : List ℚ).length ∧
    ([2, 1] : List ℚ).Nodup ∧
    (([1, 2] : List ℚ).zip ([7, 5] : List ℚ)).Perm
      (([2, 1] : List ℚ).zip ([5, 7] : List ℚ)) ∧
    compute_summary_stats (fun _ => 0) [1, 2] [7, 5] =
      compute_summary_stats (fun _ => 0)
        ((sortPairs [2, 1] [5, 7]).map Prod.fst)
        ((sortPairs [2, 1] [5, 7]).map Prod.snd) := by
  have hp : (([1, 2] : List ℚ).zip ([7, 5] : List ℚ)).Perm
      (([2, 1] : List ℚ).zip ([5, 7] : List ℚ)) :=
    List.Perm.swap ((2 : ℚ), (5 : ℚ)) ((1 : ℚ), (7 : ℚ)) []
  refine ⟨rfl, rfl, by decide, hp, ?_⟩
  exact C8_sort_invariance (fun _ => 0) [2, 1] [5, 7] [1, 2] [7, 5]
    rfl rfl (by decide) hp

end NTSummaryStats
